import Mathlib

/-!
Verification development for the `x2node-ws-resources` repository.

This file gives a shallow embedding of the two algorithmic cores of the
repository and proves properties of them:

* the transaction phase orchestrator
  (`_executeTransaction` in `lib/abstract-resource-handler.js`), embedded as
  `execTx` below as a deterministic trace semantics of the promise chain;
* the conditional HTTP request evaluator
  (`_evaluatePreconditions` / `_matchETag` in the same file), embedded as
  `evaluatePreconditions` / `matchETag`;
* the search query / filter compiler (`parseSearchQuery`,
  `parseFilterParams`, `valueToQueryParam`, `parseQueryPropRef` in the
  search query parser module), embedded under the same names.

External collaborators (the connection pool, the transaction handle, the
DBO engine, JavaScript host functions such as `Date` parsing) are modelled
by oracle inputs or by small documented restrictions; everything that is
code of this repository is translated statement by statement from the
source.
-/

namespace X2

/-! ## Transaction phase orchestrator

`_executeTransaction(txCtx, phases)` builds a promise chain:

1. acquire a connection from the data source;
2. `newTransaction(con)` is stored on the context and `start()`ed;
3. each phase runs in order, skipped entirely once `txCtx.complete`;
4. the final result is passed to `commit`, then the connection is
   released and the `commit` listeners fire;
5. a `catch` handler rolls back (if a transaction exists and is active),
   releases the connection (passing the error when it is an `Error`),
   fires the `rollback` listeners and re-throws.

The embedding runs this chain over an environment that fixes the outcome
of every external suspension point, and records the externally visible
actions as a trace of events.  A synchronous throw inside a phase and a
rejected promise returned by a phase are indistinguishable in promise
semantics and are both modelled by the phase producing `.error`. -/

/-- A JavaScript rejection value.  `isError` models the dynamic
`err instanceof Error` test in the release path (phases may reject with
non-`Error` values such as service responses). -/
structure JErr where
  isError : Bool
  code : Nat
deriving DecidableEq, Repr

/-- Resolved phase/commit results.  Their structure is irrelevant to the
orchestrator, which only threads them through, so a `Nat` suffices;
`0` stands for the `undefined` resolution of `tx.start()` that the first
phase receives. -/
abbrev JVal := Nat

/-- Externally visible actions of one `_executeTransaction` run. -/
inductive TxEv where
  | getConnection
  | startTx
  | phase (i : Nat)
  | commitTx
  | rollbackTx
  | release (withError : Bool)
  | emitCommit
  | emitRollback
deriving DecidableEq, Repr

/-- One transaction phase, as the orchestrator sees it: from the previous
result it either resolves with a value or rejects, and it may have called
`txCtx.makeComplete()` (the Boolean; `makeComplete` can only set the
flag, never clear it). -/
abbrev PhaseFn := JVal → Except JErr JVal × Bool

/-- Outcomes of every external suspension point of one run.
`rollbackOut e` is how the external handle settles the promise returned
by `rollback(e)`: `.ok` for a resolution, `.error` for a rejection, each
carrying the settle value.  `activeAfterStartFail` / `activeAfterCommitFail`
are the answers `isActive()` gives after a failed `start()` / `commit()`
(left free because the handle is an external collaborator); after a
successful start with no commit or rollback the transaction is active. -/
structure TxEnv where
  conn : Except JErr Unit
  start : Except JErr Unit
  phases : List PhaseFn
  commitErr : Option JErr
  rollbackOut : JErr → Except JErr JErr
  activeAfterStartFail : Bool
  activeAfterCommitFail : Bool

/-- The phase loop of `_executeTransaction`: each queued `.then` callback
returns the previous result unchanged when `txCtx.complete` is set and
otherwise invokes the phase.  Returns the extended trace, the final
complete flag and the settle state of the chain. -/
def runPhases : List PhaseFn → Nat → Bool → JVal → List TxEv →
    List TxEv × Bool × Except JErr JVal
  | [], _, complete, v, evs => (evs, complete, .ok v)
  | p :: rest, i, complete, v, evs =>
    if complete then
      runPhases rest (i + 1) complete v evs
    else
      match p v with
      | (.ok w, c) => runPhases rest (i + 1) (complete || c) w (evs ++ [.phase i])
      | (.error e, _) => (evs ++ [.phase i], complete, .error e)

/-- The value with which the `rollback(err).catch(err => err)` prefix of
the rollback path settles: the settle value of `rollback(err)`, whether it
resolved or rejected. -/
def rollbackSettle (env : TxEnv) (e : JErr) : JErr :=
  match env.rollbackOut e with
  | .ok x => x
  | .error x => x

/-- The `catch` handler of `_executeTransaction`.  `txSet` tells whether
`txCtx._tx` had been assigned (it is assigned synchronously as soon as the
connection resolves), `active` is the `isActive()` answer.  When active the
code runs `rollback(err).catch(err => err).then(err => ...)`: the trailing
continuation always receives the settle value of `rollback(err)` and
re-throws it after releasing the connection (with the error argument only
when that value is an `Error`) and firing the rollback listeners. -/
def failTail (env : TxEnv) (evs : List TxEv) (e : JErr) (txSet active : Bool) :
    List TxEv × Except JErr JVal :=
  if txSet then
    if active then
      (evs ++ [.rollbackTx, .release (rollbackSettle env e).isError, .emitRollback],
       .error (rollbackSettle env e))
    else
      (evs ++ [.release e.isError, .emitRollback], .error e)
  else
    (evs, .error e)

/-- The commit continuation of `_executeTransaction`: `commit(result)`
(which per the `commit(payload) → Promise<payload>` handle contract
resolves with the payload), then release without error and the `commit`
listeners; a commit rejection goes to the `catch` handler with the
transaction still set. -/
def commitTail (env : TxEnv) (evs : List TxEv) (v : JVal) :
    List TxEv × Except JErr JVal :=
  match env.commitErr with
  | none => (evs ++ [.commitTx, .release false, .emitCommit], .ok v)
  | some e => failTail env (evs ++ [.commitTx]) e true env.activeAfterCommitFail

/-- The whole `_executeTransaction` promise chain.  When acquisition fails
`txCtx._tx` was never assigned, so the `catch` handler re-throws without
touching any connection; when `start()` fails the transaction is set and
`isActive()` is the oracle's answer; a phase failure happens with the
transaction started and unfinished, hence active. -/
def execTx (env : TxEnv) : List TxEv × Except JErr JVal :=
  match env.conn with
  | .error e => failTail env [.getConnection] e false false
  | .ok _ =>
    match env.start with
    | .error e => failTail env [.getConnection, .startTx] e true env.activeAfterStartFail
    | .ok _ =>
      match runPhases env.phases 0 false 0 [.getConnection, .startTx] with
      | (evs, _, .error e) => failTail env evs e true true
      | (evs, _, .ok v) => commitTail env evs v

/-- Recogniser for connection-release events. -/
def isRelease : TxEv → Bool
  | .release _ => true
  | _ => false

/-- Number of `releaseConnection` calls in a trace. -/
def countReleases (evs : List TxEv) : Nat := (evs.filter isRelease).length

/-! ## String primitives

The source manipulates JavaScript strings with `split`, `startsWith`,
`endsWith`, `substring` and template concatenation.  All inputs handled
here are ASCII, where one JavaScript UTF-16 code unit is one character,
so the operations are embedded as character-list functions (which, unlike
the byte-indexed core `String` functions, evaluate inside the kernel). -/

/-- `String.prototype.split` with a single-character separator:
`"" ↦ [""]`, `"a:b" ↦ ["a", "b"]`, `"a:" ↦ ["a", ""]`. -/
def splitChars (sep : Char) : List Char → List (List Char)
  | [] => [[]]
  | c :: rest =>
    let r := splitChars sep rest
    if c = sep then
      [] :: r
    else
      match r with
      | h :: t => (c :: h) :: t
      | [] => [[c]]

/-- `split` on a one-character separator, on `String`. -/
def jsSplit (sep : Char) (s : String) : List String :=
  (splitChars sep s.data).map String.mk

/-- `String.prototype.startsWith`. -/
def jsStartsWith (s pre : String) : Bool :=
  pre.data.isPrefixOf s.data

/-- `String.prototype.endsWith`. -/
def jsEndsWith (s suf : String) : Bool :=
  suf.data.isSuffixOf s.data

/-- `String.prototype.substring(n)` — drop the first `n` code units. -/
def jsDrop (n : Nat) (s : String) : String :=
  String.mk (s.data.drop n)

/-- `String.prototype.length`. -/
def strLen (s : String) : Nat := s.data.length

/-- `Array.prototype.join(sep)`. -/
def joinWith (sep : String) : List String → String
  | [] => ""
  | [s] => s
  | s :: rest => s ++ sep ++ joinWith sep rest

/-- Leading-whitespace trim of a character list. -/
def trimLeftChars (l : List Char) : List Char :=
  l.dropWhile Char.isWhitespace

/-- Trailing-whitespace trim of a character list. -/
def trimRightChars (l : List Char) : List Char :=
  (trimLeftChars l.reverse).reverse

/-- Model of the JavaScript `Number(string)` conversion restricted to the
integer literals this development exercises: an optional single sign
followed by decimal digits yields that integer, the empty string yields
`0`, and anything else is `NaN` (`none`).  Fractional, exponent, hex and
whitespace-padded forms of the host conversion are outside the model, as
is the distinction between `NaN` and the infinities (both fail the
`Number.isFinite` / `Number.isInteger` guards in the source alike). -/
def digitsVal : List Char → Option Nat
  | [] => none
  | l =>
    l.foldl
      (fun acc c =>
        match acc with
        | none => none
        | some n => if c.isDigit then some (n * 10 + (c.toNat - '0'.toNat)) else none)
      (some 0)

/-- See `digitsVal`; `jsNumber` is the `Number()` model on `String`. -/
def jsNumber (s : String) : Option Int :=
  match s.data with
  | [] => some 0
  | '-' :: rest => (digitsVal rest).map (fun n => -(n : Int))
  | '+' :: rest => (digitsVal rest).map (fun n => (n : Int))
  | l => (digitsVal l).map (fun n => (n : Int))

/-! ## Conditional request evaluation

`_evaluatePreconditions(call, etag, lastModified)` and
`_matchETag(val, etag, useWeak)` from `lib/abstract-resource-handler.js`.
Header date values are modelled post-parse (`new Date(...).getTime()` is a
host function): a date header is absent, present-but-unparseable
(`some none`, the `NaN` case) or present with a timestamp.  `Date` values
are their millisecond timestamps. -/

/-- The conditional headers of a request.  `ifMatch` / `ifNoneMatch` hold
the raw header text; the date headers hold the parse result of the text
(`none` inside = `NaN`). -/
structure CondHeaders where
  ifMatch : Option String
  ifUnmodifiedSince : Option (Option Int)
  ifNoneMatch : Option String
  ifModifiedSince : Option (Option Int)
deriving DecidableEq, Repr

/-- A short-circuit service response: status, the validator headers set on
it, and the error code of the 412 entity if any. -/
structure Resp where
  status : Nat
  etagHeader : Option String
  lastModifiedHeader : Option Int
  errorCode : Option String
deriving DecidableEq, Repr

/-- The `If-Match` 412 response (code `X2-RSRC-412-1`). -/
def resp412IfMatch : Resp := ⟨412, none, none, some "X2-RSRC-412-1"⟩

/-- The `If-Unmodified-Since` 412 response (code `X2-RSRC-412-2`). -/
def resp412IfUnmodifiedSince : Resp := ⟨412, none, none, some "X2-RSRC-412-2"⟩

/-- The `If-None-Match` 412 response (code `X2-RSRC-412-3`). -/
def resp412IfNoneMatch : Resp := ⟨412, none, none, some "X2-RSRC-412-3"⟩

/-- The header value split `val.split(/\s*,\s*/g)`: split on commas, each
comma consuming the whitespace around it (outer whitespace of the whole
value is kept, as with the source regex). -/
def splitETagList (val : String) : List String :=
  let ps := splitChars ',' val.data
  let n := ps.length
  ps.enum.map fun ip =>
    let p := if 0 < ip.1 then trimLeftChars ip.2 else ip.2
    let p := if ip.1 < n - 1 then trimRightChars p else p
    String.mk p

/-- `_matchETag(val, etag, useWeak)`: `*` matches anything (even a missing
etag); otherwise a missing or empty etag matches nothing, and each listed
element matches by equality, or — for weak comparison — after stripping a
`W/` prefix. -/
def matchETag (val : String) (etag : Option String) (useWeak : Bool) : Bool :=
  if val = "*" then true
  else
    match etag with
    | none => false
    | some t =>
      if t = "" then false
      else
        (splitETagList val).any fun el =>
          el = t || (useWeak && jsStartsWith el "W/" && jsDrop 2 el = t)

/-- The first precedence step of `_evaluatePreconditions`: the
`If-Match` check (strong comparison), else the `If-Unmodified-Since`
check.  The result is `none` — no short circuit, evaluation falls
through to the `If-None-Match` step — whether the headers are absent,
`If-Match` is present but matches, or `If-Unmodified-Since` is present
but unparseable (an unparseable date header triggers nothing) or not
after the known timestamp; a missing `lastModified` is the failure case
of `If-Unmodified-Since` (`!lastModified ||` in the source). -/
def earlierPreconditions (h : CondHeaders) (etag : Option String)
    (lastModified : Option Int) : Option Resp :=
  match h.ifMatch with
  | some v => if matchETag v etag false then none else some resp412IfMatch
  | none =>
    match h.ifUnmodifiedSince with
    | some (some d) =>
      if (match lastModified with
          | none => true
          | some lm => d < lm) then
        some resp412IfUnmodifiedSince
      else none
    | some none => none
    | none => none

/-- See `earlierPreconditions` for the first step; then `If-None-Match`
(weak compare) else `If-Modified-Since`. -/
def evaluatePreconditions (h : CondHeaders) (method : String)
    (etag : Option String) (lastModified : Option Int) : Option Resp :=
  match earlierPreconditions h etag lastModified with
  | some r => some r
  | none =>
    match h.ifNoneMatch with
    | some v =>
      if matchETag v etag true then
        if method = "GET" ∨ method = "HEAD" then
          some ⟨304, etag, lastModified, none⟩
        else
          some resp412IfNoneMatch
      else none
    | none =>
      match h.ifModifiedSince with
      | some pd =>
        if method = "GET" ∨ method = "HEAD" then
          match pd, lastModified with
          | some d, some lm =>
            if d < lm then some ⟨304, etag, some lm, none⟩ else none
          | _, _ => none
        else none
      | none => none

/-! ## Record type schema

The property-container interface consumed by the parser
(`hasProperty` / `getPropertyDesc` with `isScalar()`, `isRef()`,
`scalarValueType`, `nestedProperties`, and for containers `name` and
`idPropertyName`). -/

/-- A properties container: type name, id property name, and for each
property name the tuple (isScalar, isRef, scalarValueType,
nestedProperties). -/
inductive Cont : Type where
  | make (name idPropertyName : String)
      (props : List (String × Bool × Bool × String × Option Cont)) : Cont

/-- View of one property descriptor. -/
structure PropDesc where
  isScalar : Bool
  isRef : Bool
  scalarValueType : String
  nestedProperties : Option Cont

/-- Container type name. -/
def Cont.cname : Cont → String
  | .make n _ _ => n

/-- Container id property name. -/
def Cont.idPropertyName : Cont → String
  | .make _ i _ => i

/-- Container property list. -/
def Cont.props : Cont → List (String × Bool × Bool × String × Option Cont)
  | .make _ _ ps => ps

/-- `getPropertyDesc`, as an option. -/
def Cont.findProp (c : Cont) (p : String) : Option PropDesc :=
  (c.props.find? (fun e => e.1 == p)).map
    (fun e => ⟨e.2.1, e.2.2.1, e.2.2.2.1, e.2.2.2.2⟩)

/-! ## The filter / order expression parser

`parseQueryPropRef(baseContainer, propRef, opsMapping, hasValue)` and
`valueToQueryParam(val, pred)` from the search query parser module. -/

/-- Errors thrown by the source: `syntaxErr` models a thrown
`X2SyntaxError` (carrying the distinguishing part of the message;
interpolated context such as the offending expression text is omitted
from the model), `internalErr` a thrown plain `Error`. -/
inductive SErr where
  | syntaxErr (msg : String)
  | internalErr (msg : String)
deriving DecidableEq, Repr

/-- Errors of the fuel-indexed group parser: a source error, or
`outOfFuel`, the artefact of the bounded embedding of the (unbounded)
source recursion — every error the source itself produces is a `src`,
and `outOfFuel` is proved unreachable for sufficient fuel. -/
inductive PErr where
  | src (e : SErr)
  | outOfFuel
deriving DecidableEq, Repr

/-- The order end-operations mapping for the `o` query parameter. -/
def ORDER_OPS_MAPPING : List (String × String) :=
  [("$default", "asc"),
   ("asc", "asc"),
   ("desc", "desc")]

/-- The filter end-operations mapping for the `f$` query parameters. -/
def FILTER_OPS_MAPPING : List (String × String) :=
  [("$default", "!empty"),
   ("$default:collection", "!empty"),
   ("$default:value", "eq"),
   ("$default:collection:value", "!empty"),
   ("$default!", "empty"),
   ("$default:collection!", "empty"),
   ("$default:value!", "ne"),
   ("$default:collection:value!", "empty"),
   ("min", "ge"),
   ("max", "le"),
   ("pat", "matchesi"),
   ("mid", "containsi"),
   ("pre", "startsi"),
   ("alt", "in"),
   ("count", "count"),
   ("min!", "lt"),
   ("max!", "gt"),
   ("pat!", "!matchesi"),
   ("mid!", "!containsi"),
   ("pre!", "!startsi"),
   ("alt!", "!in"),
   ("count!", "!count")]

/-- Key lookup in an operations mapping. -/
def opLookup (m : List (String × String)) (k : String) : Option String :=
  (m.find? (fun e => e.1 == k)).map (fun e => e.2)

/-- The end-operation resolution of `parseQueryPropRef`: an explicit
operation reference gets `!` appended when the expression was inverted
and is looked up as is; otherwise a `$default` key is synthesized from
the collection / has-value / inverted markers.  Returns the final
operation reference together with the mapped operation. -/
def resolveOp (m : List (String × String)) (opRef0 : Option String)
    (collection hasValue invert : Bool) : Except SErr (String × String) :=
  match opRef0 with
  | some r =>
    let r := if invert then r ++ "!" else r
    match opLookup m r with
    | some op => .ok (r, op)
    | none => .error (.syntaxErr "unknown operation.")
  | none =>
    let r := "$default"
    let r := if collection then r ++ ":collection" else r
    let r := if hasValue then r ++ ":value" else r
    let r := if invert then r ++ "!" else r
    match opLookup m r with
    | some op => .ok (r, op)
    | none => .error (.syntaxErr "this type of expression is not allowed.")

/-- The property-path walk of `parseQueryPropRef` segment 0: resolve each
dot-separated name against the running container, rejecting unknown
properties and non-scalar intermediates; a reference property contributes
the referred type's id value type and a `"<Type>#"` reference prefix
(which later names keep unless a transformation clears it).  Returns
(descriptor of the last property, value type, collection flag, reference
prefix). -/
def walkPath (container : Option Cont) (segs : List String)
    (collection : Bool) (valueType : Option String)
    (refPfx : Option String) (pd : Option PropDesc) :
    Except SErr (PropDesc × String × Bool × Option String) :=
  match segs with
  | [] =>
    match pd, valueType with
    | some d, some vt => .ok (d, vt, collection, refPfx)
    | _, _ => .error (.syntaxErr "invalid property path.")
  | propName :: rest =>
    match container with
    | none => .error (.syntaxErr "invalid property path.")
    | some c =>
      match c.findProp propName with
      | none => .error (.syntaxErr "invalid property path.")
      | some d =>
        if collection then .error (.syntaxErr "non-scalar intermediate.")
        else
          let collection2 := if !d.isScalar then true else collection
          if d.isRef then
            match d.nestedProperties with
            | some target =>
              match target.findProp target.idPropertyName with
              | some idd =>
                walkPath d.nestedProperties rest collection2
                  (some idd.scalarValueType) (some (target.cname ++ "#")) (some d)
              | none => .error (.internalErr "missing id property.")
            | none => .error (.internalErr "missing referred type.")
          else
            walkPath d.nestedProperties rest collection2
              (some d.scalarValueType) refPfx (some d)

/-- The transformation / end-operation loop of `parseQueryPropRef` over
the segments after the property path.  On a collection path the only
legal (and final) segment is `count`; on a scalar path `len`, `lc`,
`sub` and `lpad` rewrite the running spec expression and value type
(each application clearing the reference prefix), and an unrecognized
final segment is the end-operation reference (keeping the prefix).
Returns (spec, valueType, refPfx, opRef?). -/
def applyTransforms (collection : Bool) (spec : String) (valueType : String)
    (refPfx : Option String) : List String →
    Except SErr (String × String × Option String × Option String)
  | [] => .ok (spec, valueType, refPfx, none)
  | seg :: rest =>
    if collection then
      if seg == "count" then
        if rest.isEmpty then .ok (spec, valueType, none, some "count")
        else .error (.syntaxErr "\"count\" must be the only operation.")
      else .error (.syntaxErr "transformation or operation on a non-scalar.")
    else if seg == "len" then
      if valueType == "string" then
        applyTransforms collection ("length(" ++ spec ++ ")") "number" none rest
      else .error (.syntaxErr "transformation \"len\" expects string input.")
    else if seg == "lc" then
      if valueType == "string" then
        applyTransforms collection ("lower(" ++ spec ++ ")") "string" none rest
      else .error (.syntaxErr "transformation \"lc\" expects string input.")
    else if seg == "sub" then
      if !(valueType == "string") then
        .error (.syntaxErr "transformation \"sub\" expects string input.")
      else
        match rest with
        | a1 :: a2 :: rest2 =>
          match jsNumber a1 with
          | some n1 =>
            if n1 < 0 then
              .error (.syntaxErr "transformation \"sub\" expects positive integer first argument.")
            else if a2 == "" then
              applyTransforms collection
                ("substring(" ++ spec ++ ", " ++ toString n1 ++ ")") "string" none rest2
            else
              match jsNumber a2 with
              | some n2 =>
                if n2 < 0 then
                  .error (.syntaxErr "transformation \"sub\" expects empty or positive integer second argument.")
                else
                  applyTransforms collection
                    ("substring(" ++ spec ++ ", " ++ toString n1 ++ ", " ++ toString n2 ++ ")")
                    "string" none rest2
              | none =>
                .error (.syntaxErr "transformation \"sub\" expects empty or positive integer second argument.")
          | none =>
            .error (.syntaxErr "transformation \"sub\" expects positive integer first argument.")
        | _ => .error (.syntaxErr "transformation \"sub\" expects two arguments.")
    else if seg == "lpad" then
      if !(valueType == "string") then
        .error (.syntaxErr "transformation \"lpad\" expects string input.")
      else
        match rest with
        | a1 :: a2 :: rest2 =>
          match jsNumber a1 with
          | some n1 =>
            if n1 < 0 then
              .error (.syntaxErr "transformation \"lpad\" expects positive integer first argument.")
            else
              let a2v := if a2 == "" then " " else a2
              if strLen a2v > 1 then
                .error (.syntaxErr "transformation \"lpad\" expects empty or single character second argument.")
              else
                applyTransforms collection
                  ("lpad(" ++ spec ++ ", " ++ toString n1 ++ ", \"" ++ a2v ++ "\")")
                  "string" none rest2
          | none =>
            .error (.syntaxErr "transformation \"lpad\" expects positive integer first argument.")
        | _ => .error (.syntaxErr "transformation \"lpad\" expects two arguments.")
    else if rest.isEmpty then
      .ok (spec, valueType, refPfx, some seg)
    else .error (.syntaxErr "unknown transformation.")

/-- Parse result descriptor of `parseQueryPropRef`. -/
structure PredDesc where
  propDesc : PropDesc
  spec : String
  valueType : String
  refPrefix : Option String
  multi : Bool
  requiresValue : Bool

/-- `parseQueryPropRef(baseContainer, propRef, opsMapping, hasValue)`:
strip a trailing `!`, split on `:`, resolve the property path, walk the
transformation segments, resolve the end operation, and assemble the
descriptor (value type forced to `$pattern` for the `pat` family, multi
flag for the `alt` family, a value required for every non-default
operation reference). -/
def parseQueryPropRef (base : Option Cont) (propRef0 : String)
    (m : List (String × String)) (hasValue : Bool) : Except SErr PredDesc :=
  let invert := jsEndsWith propRef0 "!"
  let propRef := if invert then String.mk propRef0.data.dropLast else propRef0
  match jsSplit ':' propRef with
  | [] => .error (.syntaxErr "invalid property path.")
  | path :: segs =>
    match walkPath base (jsSplit '.' path) false none none none with
    | .error e => .error e
    | .ok (pd, vt, collection, refPfx) =>
      if vt == "object" && !collection then
        .error (.syntaxErr "nested object used for non-collection test.")
      else
        match applyTransforms collection path vt refPfx segs with
        | .error e => .error e
        | .ok (spec, vt2, refPfx2, opRef0) =>
          match resolveOp m opRef0 collection hasValue invert with
          | .error e => .error e
          | .ok (opRef, op) =>
            .ok ⟨pd, spec ++ " => " ++ op,
              (if jsStartsWith opRef "pat" then "$pattern" else vt2),
              refPfx2,
              jsStartsWith opRef "alt",
              !jsStartsWith opRef "$default"⟩

/-- Model of the host `new Date(v)` / `toISOString()` round trip used by
the datetime branch of `valueToQueryParam`, restricted to what this
development exercises (no verified claim supplies a datetime operand):
exactly the strings already in the 24-character ISO form produced by
`toISOString` parse, and they normalize to themselves; every other string
is an invalid date. -/
def jsDateParse (s : String) : Option String :=
  match s.data with
  | [y1, y2, y3, y4, '-', m1, m2, '-', d1, d2, 'T',
     h1, h2, ':', i1, i2, ':', s1, s2, '.', f1, f2, f3, 'Z'] =>
    if [y1, y2, y3, y4, m1, m2, d1, d2, h1, h2, i1, i2, s1, s2, f1, f2, f3].all Char.isDigit
    then some s else none
  | _ => none

/-- Model of the host `new RegExp(v).source`, restricted to what this
development exercises (no verified claim supplies a regex operand): every
pattern compiles and its source is the pattern text. -/
def jsRegexSource (s : String) : String := s

/-- A DBO query parameter value: a coerced scalar or — for the `in`
family — an array of coerced scalars.  Datetime and regex operands
coerce to their string forms as in the source. -/
inductive QPVal where
  | s (v : String)
  | n (v : Int)
  | b (v : Bool)
  | arr (vs : List QPVal)

/-- `valueToQueryParam(val, pred)`: coerce one raw operand according to
the predicate's value type, stripping a present reference prefix for
string and number types. -/
def valueToQueryParam (val : String) (valueType : String)
    (refPfx : Option String) : Except SErr QPVal :=
  if valueType == "string" then
    match refPfx with
    | some p =>
      if jsStartsWith val p then .ok (.s (jsDrop (strLen p) val))
      else .ok (.s val)
    | none => .ok (.s val)
  else if valueType == "number" then
    let raw :=
      match refPfx with
      | some p => if jsStartsWith val p then jsDrop (strLen p) val else val
      | none => val
    match jsNumber raw with
    | some n => .ok (.n n)
    | none => .error (.syntaxErr "Invalid test value, expected a number.")
  else if valueType == "boolean" then
    if val == "true" then .ok (.b true)
    else if val == "false" then .ok (.b false)
    else .error (.syntaxErr "Invalid test value, expected \"true\" or \"false\".")
  else if valueType == "datetime" then
    match jsDateParse val with
    | some iso => .ok (.s iso)
    | none => .error (.syntaxErr "Invalid test value, expected a valid datetime.")
  else if valueType == "$pattern" then
    .ok (.s (jsRegexSource val))
  else
    .error (.internalErr "unexpected query parameter value type.")

/-! ## The filter group parser and the search query compiler

`parseFilterParams(baseContainer, groupId, junc, urlQuery, queryParams,
parentGroupIds)` and `parseSearchQuery(recordTypeDesc, urlQuery,
queryParts, queryParams)`.

A URL query parameter value is a single string or — for a parameter the
HTTP layer saw more than once — an array of strings.  A filter
specification node is embedded as the JavaScript array value the source
builds (`FV`).  The source recursion into nested groups is unbounded in
the syntax of the language (its termination on every input is one of the
proved results), so the embedding is fuel-indexed: both mutually
recursive loops are defined at once by structural recursion on the fuel,
which every call level consumes; `PErr.outOfFuel` marks exhaustion and is
proved unreachable for fuel beyond a bound computed from the query. -/

/-- A URL query parameter value. -/
inductive QV where
  | one (s : String)
  | many (vs : List String)
deriving DecidableEq, Repr

/-- Parsed URL query string: parameter names with their values, in
insertion order (`Object.keys` order for the names). -/
abbrev UrlQuery := List (String × QV)

/-- JavaScript property access `urlQuery[k]`. -/
def qGet (q : UrlQuery) (k : String) : Option QV :=
  (q.find? (fun e => e.1 == k)).map (fun e => e.2)

/-- JavaScript truthiness of a query parameter value (`undefined` and the
empty string are falsy; an array is truthy). -/
def truthyQV : Option QV → Bool
  | none => false
  | some (.one s) => !(s == "")
  | some (.many _) => true

/-- The value list a parameter contributes
(`Array.isArray(v) ? v : [v]`). -/
def valsOf : QV → List String
  | .one s => [s]
  | .many vs => vs

/-- `Array.join(',')` for a possibly multi-valued parameter. -/
def joinQV : QV → String
  | .one s => s
  | .many vs => joinWith "," vs

/-- A filter specification value: the JavaScript array structure the
parser builds (strings, numbers, `dbos.param(name)` references, nested
arrays). -/
inductive FV where
  | str (s : String)
  | num (n : Int)
  | pararef (name : String)
  | arr (elems : List FV)

/-- Accumulated generated query parameters (name, coerced value). -/
abbrev QPs := List (String × QPVal)

/-- Left-to-right `Array.prototype.map` under coercion failure. -/
def mapValues (f : String → Except SErr QPVal) : List String → Except SErr (List QPVal)
  | [] => .ok []
  | v :: rest =>
    match f v with
    | .error e => .error e
    | .ok x => (mapValues f rest).map (fun l => x :: l)

/-- The nested-group junction directives (`:or`, `:or!`, `:and`,
`:and!`), mapped to the junction type of the nested group. -/
def junctionOf (refExpr : String) : Option String :=
  if refExpr == ":or" then some ":or"
  else if refExpr == ":or!" then some ":!or"
  else if refExpr == ":and" then some ":and"
  else if refExpr == ":and!" then some ":!and"
  else none

/-- The (reference expression, operand expression) pairs of one group:
parameters whose name starts with `"<groupId>$"`, each repeated value
processed independently, in source order. -/
def groupEntries (groupId : String) (q : UrlQuery) : List (String × String) :=
  (q.filter (fun e => jsStartsWith e.1 (groupId ++ "$"))).flatMap
    (fun e => (valsOf e.2).map (fun v => (jsDrop (strLen (groupId ++ "$")) e.1, v)))

/-- Result of parsing one filter group: the `[junc, members]` pair, or
nothing when no members were collected, together with the accumulated
generated query parameters. -/
abbrev GroupRes := Except PErr (Option (String × List FV) × QPs)

/-- Result of the parameter loop of one group: collected members, next
generated parameter id, accumulated query parameters. -/
abbrev EntriesRes := Except PErr (List FV × Nat × QPs)

/-- Type of the group parser at one fuel level. -/
abbrev ParseGroupFn :=
  Option Cont → String → String → UrlQuery → List String → QPs → GroupRes

/-- Type of the group parameter loop at one fuel level. -/
abbrev GoEntriesFn :=
  Option Cont → String → UrlQuery → List String → List (String × String) →
    Nat → List FV → QPs → EntriesRes

/-- The body of the per-parameter loop of `parseFilterParams` for one
(reference expression, operand expression) entry, parameterized by the
group parser `pf` used for nested groups (always called with the current
group id pushed onto the ancestor set): junction directives recurse and
splice the nested `[junc, members]` node when non-empty; scalar
predicates coerce the operand (element-wise over `|` for the `alt`
family) and register a `p<groupId><seq>` parameter; collection-valued
predicates parse the optional `count` threshold from the operand and
recurse into the element container for the nested sub-filter; an absent
operand is legal only for the default operation family.  Returns the
updated (next parameter id, members, query parameters). -/
def stepEntry (pf : ParseGroupFn) (base : Option Cont) (groupId : String)
    (q : UrlQuery) (parents : List String) (refExpr valExpr : String)
    (nextId : Nat) (members : List FV) (qp : QPs) :
    Except PErr (Nat × List FV × QPs) :=
  if jsStartsWith refExpr ":" then
    match junctionOf refExpr with
    | none => .error (.src (.syntaxErr "Invalid junction type."))
    | some nestedJunc =>
      match pf base valExpr nestedJunc q (groupId :: parents) qp with
      | .error e => .error e
      | .ok (nested, qp2) =>
        match nested with
        | some jm => .ok (nextId, members ++ [FV.arr [FV.str jm.1, FV.arr jm.2]], qp2)
        | none => .ok (nextId, members, qp2)
  else
    let hasValue := decide (0 < strLen valExpr)
    match parseQueryPropRef base refExpr FILTER_OPS_MAPPING hasValue with
    | .error e => .error (.src e)
    | .ok pred =>
      if hasValue then
        if !pred.propDesc.isScalar then
          match
            (if jsEndsWith pred.spec "count" then
              match jsSplit ':' valExpr with
              | [c] =>
                match jsNumber c with
                | some n => .ok (some n, none)
                | none => .error (SErr.syntaxErr
                    "Invalid \"count\" filter parameter value: the count is not an integer.")
              | [c, g] =>
                match jsNumber c with
                | some n => .ok (some n, some g)
                | none => .error (SErr.syntaxErr
                    "Invalid \"count\" filter parameter value: the count is not an integer.")
              | _ => .error (SErr.syntaxErr
                  "Invalid \"count\" filter parameter value: more than 2 colon-separated values.")
            else .ok (none, some valExpr) :
              Except SErr (Option Int × Option String)) with
          | .error e => .error (.src e)
          | .ok (cnt, ng0) =>
            let ng :=
              match ng0 with
              | some g => if g == "" then none else some g
              | none => none
            match ng with
            | some gid =>
              match pf pred.propDesc.nestedProperties gid ":and" q
                  (groupId :: parents) qp with
              | .error e => .error e
              | .ok (nested, qp2) =>
                let memberSpec := FV.str pred.spec ::
                  ((match cnt with | some n => [FV.num n] | none => []) ++
                   (match nested with
                    | some jm => [FV.arr [FV.arr [FV.str jm.1, FV.arr jm.2]]]
                    | none => []))
                .ok (nextId, members ++ [FV.arr memberSpec], qp2)
            | none =>
              let memberSpec := FV.str pred.spec ::
                (match cnt with | some n => [FV.num n] | none => [])
              .ok (nextId, members ++ [FV.arr memberSpec], qp)
        else
          match
            (if pred.multi then
              (mapValues
                (fun v => valueToQueryParam v pred.valueType pred.refPrefix)
                (jsSplit '|' valExpr)).map QPVal.arr
            else valueToQueryParam valExpr pred.valueType pred.refPrefix :
              Except SErr QPVal) with
          | .error e => .error (.src e)
          | .ok qv =>
            let pname := "p" ++ groupId ++ toString nextId
            .ok (nextId + 1,
              members ++ [FV.arr [FV.str pred.spec, FV.pararef pname]],
              qp ++ [(pname, qv)])
      else
        if pred.requiresValue then
          .error (.src (.syntaxErr "filter requires a value."))
        else
          .ok (nextId, members ++ [FV.arr [FV.str pred.spec]], qp)

/-- The two mutually recursive loops of `parseFilterParams`, built
together by structural recursion on the fuel, which every call level
consumes.  The first component is the group parser (empty-group-id
check, circular-reference check against the ancestor set, parameter
scan, `[junc, members]` assembly); the second scans one group's
(reference, operand) entries through `stepEntry`. -/
def parserAt : Nat → ParseGroupFn × GoEntriesFn
  | 0 =>
    (fun _ _ _ _ _ _ => .error .outOfFuel,
     fun _ _ _ _ _ _ _ _ => .error .outOfFuel)
  | fuel + 1 =>
    let p := parserAt fuel
    (fun base groupId junc q parents qp =>
      if strLen groupId == 0 then .error (.src (.syntaxErr "Empty nested group id."))
      else if parents.contains groupId then
        .error (.src (.syntaxErr "Circular filter group reference."))
      else
        match p.2 base groupId q parents (groupEntries groupId q) 0 [] qp with
        | .error e => .error e
        | .ok (members, _, qp2) =>
          .ok (if members.isEmpty then none else some (junc, members), qp2),
     fun base groupId q parents entries nextId members qp =>
      match entries with
      | [] => .ok (members, nextId, qp)
      | (refExpr, valExpr) :: rest =>
        match stepEntry p.1 base groupId q parents refExpr valExpr nextId members qp with
        | .error e => .error e
        | .ok (nextId2, members2, qp2) =>
          p.2 base groupId q parents rest nextId2 members2 qp2)

/-- `parseFilterParams` at the given fuel. -/
def parseFilterParams (fuel : Nat) (base : Option Cont) (groupId junc : String)
    (q : UrlQuery) (parents : List String) (qp : QPs) : GroupRes :=
  (parserAt fuel).1 base groupId junc q parents qp

/-- The group parameter loop at the given fuel. -/
def goEntries (fuel : Nat) (base : Option Cont) (groupId : String) (q : UrlQuery)
    (parents : List String) (entries : List (String × String))
    (nextId : Nat) (members : List FV) (qp : QPs) : EntriesRes :=
  (parserAt fuel).2 base groupId q parents entries nextId members qp

/-- The compiled query specification: the four optional section outputs of
`parseSearchQuery` (a section is present exactly when the corresponding
part is enabled and, except for the filter, its parameter is truthy).
The filter section holds the member list of the root group (an empty list
when no filter parameters contributed). -/
structure QuerySpec where
  props : Option (List String)
  filter : Option (List FV)
  order : Option (List String)
  range : Option (List (Option Int))

/-- Order-by expression list: each comma-separated element through
`parseQueryPropRef` with the order operations mapping, keeping the spec. -/
def mapSpecs (f : String → Except SErr PredDesc) : List String → Except SErr (List String)
  | [] => .ok []
  | v :: rest =>
    match f v with
    | .error e => .error e
    | .ok d => (mapSpecs f rest).map (fun l => d.spec :: l)

/-- `parseSearchQuery(recordTypeDesc, urlQuery, queryParts, queryParams)`:
the `p` projection passthrough, the `f` filter group parse rooted at group
id `f` with an `:and` junction, the `o` order parse, and the `r` range
parse — where a repeated `r` parameter (an array value) is a hard syntax
error and a single value is comma-split and `Number()`-converted
element-wise. -/
def parseSearchQuery (fuel : Nat) (recordTypeDesc : Cont) (urlQuery : UrlQuery)
    (queryParts : String) (qp : QPs) : Except PErr (QuerySpec × QPs) :=
  let hasPart (c : Char) : Bool := queryParts.data.contains c
  let props : Option (List String) :=
    if hasPart 'p' && truthyQV (qGet urlQuery "p") then
      some (jsSplit ',' (joinQV ((qGet urlQuery "p").getD (QV.one ""))))
    else none
  match
    (if hasPart 'f' then
      (parseFilterParams fuel (some recordTypeDesc) "f" ":and" urlQuery [] qp).map
        (fun r => (some (match r.1 with | some jm => jm.2 | none => []), r.2))
    else .ok (none, qp) : Except PErr (Option (List FV) × QPs)) with
  | .error e => .error e
  | .ok (filter, qp2) =>
    match
      (if hasPart 'o' && truthyQV (qGet urlQuery "o") then
        match mapSpecs
          (fun el => parseQueryPropRef (some recordTypeDesc) el ORDER_OPS_MAPPING false)
          (jsSplit ',' (joinQV ((qGet urlQuery "o").getD (QV.one "")))) with
        | .error e => .error (.src e)
        | .ok l => .ok (some l)
      else .ok none : Except PErr (Option (List String))) with
    | .error e => .error e
    | .ok order =>
      match
        (if hasPart 'r' && truthyQV (qGet urlQuery "r") then
          match qGet urlQuery "r" with
          | some (QV.many _) =>
            .error (.src (.syntaxErr "More than one range specification."))
          | some (QV.one s) => .ok (some ((jsSplit ',' s).map jsNumber))
          | none => .ok none
        else .ok none : Except PErr (Option (List (Option Int)))) with
      | .error e => .error e
      | .ok range => .ok (⟨props, filter, order, range⟩, qp2)

/-! ## Termination measures for the group recursion

Every group id the parser can recurse into from a query is either a
parameter value (junction directives and plain collection sub-filters)
or a colon-separated part after the first of a parameter value (the
`count` encoding).  The recursion strictly grows the ancestor set inside
this finite candidate pool, which bounds its depth; the fuel bound below
is what the no-out-of-fuel theorem consumes. -/

/-- All candidate nested-group ids of a query. -/
def candIds (q : UrlQuery) : List String :=
  q.flatMap (fun e => (valsOf e.2).flatMap (fun s => s :: (jsSplit ':' s).drop 1))

/-- Total number of parameter values of a query: an upper bound on the
number of (reference, operand) entries of any one group. -/
def totalVals (q : UrlQuery) : Nat :=
  (q.map (fun e => (valsOf e.2).length)).sum

/-- Number of candidate ids not yet on the ancestor set. -/
def remaining (q : UrlQuery) (parents : List String) : Nat :=
  ((candIds q).dedup.filter (fun x => decide (x ∉ parents))).length

/-! ## Concrete fixtures

Schemas, query parameter sets and orchestrator environments used to
instantiate the theorems below. -/

/-- A record type with a string `status` and a number `price` property. -/
def schemaOrder : Cont := .make "Order" "id"
  [("id", (true, false, "number", none)),
   ("status", (true, false, "string", none)),
   ("price", (true, false, "number", none))]

/-- A record type with a number id and a string `lastName` property. -/
def schemaPerson : Cont := .make "Person" "id"
  [("id", (true, false, "number", none)),
   ("lastName", (true, false, "string", none))]

/-- A record type whose `accountRef` property is a scalar reference to
`schemaPerson`. -/
def schemaAccount : Cont := .make "Account" "id"
  [("id", (true, false, "number", none)),
   ("accountRef", (true, true, "ref", some schemaPerson))]

/-- The example filter input
`{"f$status": "PENDING", "f$price:min": "10", "f$price:max!": "100"}`. -/
def qExample : UrlQuery :=
  [("f$status", .one "PENDING"),
   ("f$price:min", .one "10"),
   ("f$price:max!", .one "100")]

/-- The members the example input compiles to. -/
def exampleMembers : List FV :=
  [FV.arr [FV.str "status => eq", FV.pararef "pf0"],
   FV.arr [FV.str "price => ge", FV.pararef "pf1"],
   FV.arr [FV.str "price => gt", FV.pararef "pf2"]]

/-- The generated query parameters of the example input. -/
def exampleParams : QPs :=
  [("pf0", QPVal.s "PENDING"), ("pf1", QPVal.n 10), ("pf2", QPVal.n 100)]

/-- The deliberately cyclic fixture `f$:or=a&a$:or=b&b$:or=a`. -/
def qCyclic : UrlQuery :=
  [("f$:or", .one "a"), ("a$:or", .one "b"), ("b$:or", .one "a")]

/-- A query parameter set whose group `a` references itself but is not
referenced from the root filter group `f`. -/
def qSelfLoop : UrlQuery := [("a$:or", .one "a")]

/-- A test record for stating the meaning of the example's compiled
filter. -/
structure SRec where
  status : String
  price : Int

/-- Generated query parameter lookup. -/
def lookupQP (qp : QPs) (k : String) : Option QPVal :=
  (qp.find? (fun e => e.1 == k)).map (fun e => e.2)

/-- Modelled from the spec: the DBO engine that executes a compiled
filter is an external collaborator (excluded by the spec's scope), so the
meaning of the generated member specifications over `SRec`, which the
"filter tree equivalent to ..." claim needs, is taken from the spec's
operator descriptions: `eq`/`ne` are (in)equality, `ge`/`le`/`gt`/`lt`
the corresponding comparisons, each member testing its property against
its bound parameter. -/
def evalMember (qp : QPs) (r : SRec) : FV → Option Bool
  | FV.arr [FV.str spec, FV.pararef p] =>
    match lookupQP qp p with
    | some (QPVal.s sv) =>
      if spec == "status => eq" then some (r.status == sv)
      else if spec == "status => ne" then some (!(r.status == sv))
      else none
    | some (QPVal.n nv) =>
      if spec == "price => ge" then some (decide (nv ≤ r.price))
      else if spec == "price => le" then some (decide (r.price ≤ nv))
      else if spec == "price => gt" then some (decide (nv < r.price))
      else if spec == "price => lt" then some (decide (r.price < nv))
      else none
    | _ => none
  | _ => none

/-- Conjunction (the `:and` junction) of the member meanings. -/
def evalAndMembers (qp : QPs) (r : SRec) : List FV → Option Bool
  | [] => some true
  | m :: rest =>
    match evalMember qp r m, evalAndMembers qp r rest with
    | some b, some bs => some (b && bs)
    | _, _ => none

/-- The predicate the claim's
`AND(status == "PENDING", price >= 10, NOT(price > 100))` denotes. -/
def exampleClaimSem (r : SRec) : Bool :=
  r.status == "PENDING" && (decide (10 ≤ r.price) && !decide (100 < r.price))

/-- A phase resolving with `v`. -/
def phOk (v : JVal) : PhaseFn := fun _ => (.ok v, false)

/-- A phase calling `makeComplete()` and resolving with `v`. -/
def phComplete (v : JVal) : PhaseFn := fun _ => (.ok v, true)

/-- A phase rejecting with `e`. -/
def phFail (e : JErr) : PhaseFn := fun _ => (.error e, false)

/-- A sample `Error`-like rejection value. -/
def errB : JErr := ⟨true, 7⟩

/-- Environment in which everything succeeds. -/
def envAllOk : TxEnv :=
  ⟨.ok (), .ok (), [phOk 1, phOk 2, phOk 3], none, fun e => .ok e, false, false⟩

/-- Environment whose second of three phases marks the transaction
complete. -/
def envEarlyComplete : TxEnv :=
  ⟨.ok (), .ok (), [phOk 1, phComplete 2, phFail errB], none, fun e => .ok e, false, false⟩

/-- Environment whose second phase fails, with a rollback that rejects
with the error passed to it. -/
def envPhaseFail : TxEnv :=
  ⟨.ok (), .ok (), [phOk 1, phFail errB, phOk 3], none, fun e => .error e, false, false⟩

/-- Conditional headers carrying only `If-None-Match: "v1"`. -/
def hdrNoneMatch : CondHeaders := ⟨none, none, some "\"v1\"", none⟩

/-- Conditional headers carrying a matching (hence passing) `If-Match:
"v1"` together with `If-None-Match: "v1"`. -/
def hdrMatchAndNoneMatch : CondHeaders :=
  ⟨some "\"v1\"", none, some "\"v1\"", none⟩

/-- Conditional headers carrying only `If-Unmodified-Since` parsed to
timestamp 50. -/
def hdrUnmodSince : CondHeaders := ⟨none, some (some 50), none, none⟩

/-! ## Orchestrator lemmas -/

theorem countReleases_append (a b : List TxEv) :
    countReleases (a ++ b) = countReleases a + countReleases b := by
  simp [countReleases, List.filter_append]

theorem countReleases_phases (tail : List TxEv)
    (hb : ∀ ev ∈ tail, ∃ j, ev = TxEv.phase j) : countReleases tail = 0 := by
  induction tail with
  | nil => rfl
  | cons ev rest ih =>
    obtain ⟨j, hj⟩ := hb ev (by simp)
    subst hj
    have hstep : countReleases (TxEv.phase j :: rest) = countReleases rest := rfl
    rw [hstep]
    exact ih (fun e he => hb e (by simp [he]))

theorem countReleases_failTail (env : TxEnv) (evs : List TxEv) (e : JErr) (active : Bool) :
    countReleases (failTail env evs e true active).1 = countReleases evs + 1 := by
  cases active
  · show countReleases (evs ++ [TxEv.release e.isError, TxEv.emitRollback]) = _
    rw [countReleases_append]
    rfl
  · show countReleases
      (evs ++ [TxEv.rollbackTx, TxEv.release (rollbackSettle env e).isError,
        TxEv.emitRollback]) = _
    rw [countReleases_append]
    rfl

theorem countReleases_commitTail (env : TxEnv) (evs : List TxEv) (v : JVal) :
    countReleases (commitTail env evs v).1 = countReleases evs + 1 := by
  rcases hc : env.commitErr with _ | e
  · have hstep : commitTail env evs v =
        (evs ++ [TxEv.commitTx, TxEv.release false, TxEv.emitCommit], .ok v) := by
      simp [commitTail, hc]
    rw [hstep]
    show countReleases (evs ++ [TxEv.commitTx, TxEv.release false, TxEv.emitCommit]) = _
    rw [countReleases_append]
    rfl
  · have hstep : commitTail env evs v =
        failTail env (evs ++ [TxEv.commitTx]) e true env.activeAfterCommitFail := by
      simp [commitTail, hc]
    rw [hstep, countReleases_failTail, countReleases_append]
    rfl

theorem runPhases_trace (ps : List PhaseFn) : ∀ i c v evs,
    ∃ tail res, runPhases ps i c v evs = (evs ++ tail, res) ∧
      ∀ ev ∈ tail, ∃ j, ev = TxEv.phase j ∧ j < i + ps.length := by
  induction ps with
  | nil =>
    intro i c v evs
    exact ⟨[], (c, .ok v), by simp [runPhases], by simp⟩
  | cons p rest ih =>
    intro i c v evs
    cases c with
    | false =>
      rcases hp : p v with ⟨out, cc⟩
      cases out with
      | ok w =>
        obtain ⟨tail, res, heq, hb⟩ := ih (i + 1) cc w (evs ++ [TxEv.phase i])
        refine ⟨TxEv.phase i :: tail, res, ?_, ?_⟩
        · have hstep : runPhases (p :: rest) i false v evs =
              runPhases rest (i + 1) cc w (evs ++ [TxEv.phase i]) := by
            simp [runPhases, hp]
          rw [hstep, heq]
          simp
        · intro ev hev
          rcases List.mem_cons.mp hev with hev | hev
          · refine ⟨i, hev, ?_⟩
            simp only [List.length_cons]
            omega
          · obtain ⟨j, hj, hlt⟩ := hb ev hev
            refine ⟨j, hj, ?_⟩
            simp only [List.length_cons] at hlt ⊢
            omega
      | error e =>
        refine ⟨[TxEv.phase i], (false, .error e), ?_, ?_⟩
        · simp [runPhases, hp]
        · intro ev hev
          refine ⟨i, List.mem_singleton.mp hev, ?_⟩
          simp only [List.length_cons]
          omega
    | true =>
      obtain ⟨tail, res, heq, hb⟩ := ih (i + 1) true v evs
      refine ⟨tail, res, ?_, ?_⟩
      · have hstep : runPhases (p :: rest) i true v evs =
            runPhases rest (i + 1) true v evs := by
          simp [runPhases]
        rw [hstep, heq]
      · intro ev hev
        obtain ⟨j, hj, hlt⟩ := hb ev hev
        refine ⟨j, hj, ?_⟩
        simp only [List.length_cons] at hlt ⊢
        omega

theorem runPhases_skip (ps : List PhaseFn) : ∀ i v evs,
    runPhases ps i true v evs = (evs, true, .ok v) := by
  induction ps with
  | nil => intro i v evs; rfl
  | cons p rest ih =>
    intro i v evs
    simpa [runPhases] using ih (i + 1) v evs

theorem runPhases_append_ok (xs ys : List PhaseFn) : ∀ i c v evs evs2 c2 w,
    runPhases xs i c v evs = (evs2, c2, .ok w) →
    runPhases (xs ++ ys) i c v evs = runPhases ys (i + xs.length) c2 w evs2 := by
  induction xs with
  | nil =>
    intro i c v evs evs2 c2 w h
    simp only [runPhases] at h
    obtain ⟨h1, h2, h3⟩ : evs = evs2 ∧ c = c2 ∧ v = w := by
      refine ⟨congrArg Prod.fst h, congrArg (fun x => x.2.1) h, ?_⟩
      have := congrArg (fun x => x.2.2) h
      simpa using this
    subst h1; subst h2; subst h3
    simp
  | cons p rest ih =>
    intro i c v evs evs2 c2 w h
    cases c with
    | true =>
      have h2 : runPhases rest (i + 1) true v evs = (evs2, c2, .ok w) := by
        simpa [runPhases] using h
      have h3 := ih (i + 1) true v evs evs2 c2 w h2
      have hstep : runPhases ((p :: rest) ++ ys) i true v evs =
          runPhases (rest ++ ys) (i + 1) true v evs := by
        simp [runPhases]
      rw [hstep, h3, List.length_cons]
      have harith : i + 1 + rest.length = i + (rest.length + 1) := by omega
      rw [harith]
    | false =>
      rcases hp : p v with ⟨out, cc⟩
      cases out with
      | ok u =>
        have h2 : runPhases rest (i + 1) cc u (evs ++ [TxEv.phase i]) = (evs2, c2, .ok w) := by
          simpa [runPhases, hp] using h
        have h3 := ih (i + 1) cc u (evs ++ [TxEv.phase i]) evs2 c2 w h2
        have hstep : runPhases ((p :: rest) ++ ys) i false v evs =
            runPhases (rest ++ ys) (i + 1) cc u (evs ++ [TxEv.phase i]) := by
          simp [runPhases, hp]
        rw [hstep, h3, List.length_cons]
        have harith : i + 1 + rest.length = i + (rest.length + 1) := by omega
        rw [harith]
      | error e =>
        simp [runPhases, hp] at h

theorem commitTail_fst (env : TxEnv) (evs : List TxEv) (v : JVal) :
    ∃ extra, (commitTail env evs v).1 = evs ++ (TxEv.commitTx :: extra) ∧
      ∀ ev ∈ extra, ev = TxEv.rollbackTx ∨ (∃ b, ev = TxEv.release b) ∨
        ev = TxEv.emitCommit ∨ ev = TxEv.emitRollback := by
  rcases hc : env.commitErr with _ | e
  · refine ⟨[TxEv.release false, TxEv.emitCommit], by simp [commitTail, hc], ?_⟩
    intro ev hev
    rcases List.mem_cons.mp hev with rfl | hev
    · exact Or.inr (Or.inl ⟨false, rfl⟩)
    · rcases List.mem_singleton.mp hev with rfl
      exact Or.inr (Or.inr (Or.inl rfl))
  · cases hact : env.activeAfterCommitFail
    · refine ⟨[TxEv.release e.isError, TxEv.emitRollback], ?_, ?_⟩
      · simp [commitTail, hc, failTail, hact]
      · intro ev hev
        rcases List.mem_cons.mp hev with rfl | hev
        · exact Or.inr (Or.inl ⟨_, rfl⟩)
        · rcases List.mem_singleton.mp hev with rfl
          exact Or.inr (Or.inr (Or.inr rfl))
    · refine ⟨[TxEv.rollbackTx, TxEv.release (rollbackSettle env e).isError,
        TxEv.emitRollback], ?_, ?_⟩
      · simp [commitTail, hc, failTail, hact]
      · intro ev hev
        rcases List.mem_cons.mp hev with rfl | hev
        · exact Or.inl rfl
        · rcases List.mem_cons.mp hev with rfl | hev
          · exact Or.inr (Or.inl ⟨_, rfl⟩)
          · rcases List.mem_singleton.mp hev with rfl
            exact Or.inr (Or.inr (Or.inr rfl))

/-! ## Claim theorems: the transaction orchestrator -/

/-- C1: for every execution of `_executeTransaction` in which a database
connection was successfully acquired, the connection is released back to
the data source exactly once, on every exit path: all phases succeed and
commit succeeds, a phase fails — a synchronous throw and a rejected
promise being the same outcome under promise semantics, both are the
phase producing `.error` — transaction start fails, or commit fails after
all phases succeed. -/
theorem connectionReleasedExactlyOnce (env : TxEnv) (h : env.conn = .ok ()) :
    countReleases (execTx env).1 = 1 := by
  obtain ⟨tail, res, heq, hb⟩ :=
    runPhases_trace env.phases 0 false 0 [TxEv.getConnection, TxEv.startTx]
  have htail : countReleases ([TxEv.getConnection, TxEv.startTx] ++ tail) = 0 := by
    rw [countReleases_append,
      countReleases_phases tail (fun ev hev => (hb ev hev).imp (fun j hj => hj.1))]
    rfl
  rcases hs : env.start with e | u
  · have hx : execTx env =
        failTail env [TxEv.getConnection, TxEv.startTx] e true env.activeAfterStartFail := by
      simp only [execTx, h, hs]
    rw [hx, countReleases_failTail]
    rfl
  · cases u
    rcases res with ⟨c2, r⟩
    cases r with
    | error e =>
      have hx : execTx env =
          failTail env ([TxEv.getConnection, TxEv.startTx] ++ tail) e true true := by
        simp only [execTx, h, hs, heq]
      rw [hx, countReleases_failTail, htail]
    | ok v =>
      have hx : execTx env = commitTail env ([TxEv.getConnection, TxEv.startTx] ++ tail) v := by
        simp only [execTx, h, hs, heq]
      rw [hx, countReleases_commitTail, htail]

/-- Witness for C1 at a concrete all-success environment. -/
theorem connectionReleasedExactlyOnce_witness :
    envAllOk.conn = .ok () ∧ countReleases (execTx envAllOk).1 = 1 :=
  ⟨rfl, connectionReleasedExactlyOnce envAllOk rfl⟩

/-- C3: if a phase sets the context's complete flag (and resolves), no
phase after it is invoked, its result is passed through unchanged to the
commit step, the orchestrator proceeds to commit — never to rollback —
and, when the commit succeeds, the run resolves with that phase's result
with no rollback event anywhere in the trace. -/
theorem phaseCompleteShortCircuit (env : TxEnv) (ps : List PhaseFn) (p : PhaseFn)
    (rest : List PhaseFn) (evs0 : List TxEv) (w v : JVal)
    (hconn : env.conn = .ok ()) (hstart : env.start = .ok ())
    (hph : env.phases = ps ++ p :: rest)
    (hpre : runPhases ps 0 false 0 [TxEv.getConnection, TxEv.startTx] = (evs0, false, .ok w))
    (hp : p w = (.ok v, true)) :
    execTx env = commitTail env (evs0 ++ [TxEv.phase ps.length]) v ∧
    (∀ j, ps.length < j → TxEv.phase j ∉ (execTx env).1) ∧
    TxEv.commitTx ∈ (execTx env).1 ∧
    (env.commitErr = none →
      execTx env =
        (evs0 ++ [TxEv.phase ps.length, TxEv.commitTx, TxEv.release false, TxEv.emitCommit],
         .ok v) ∧
      TxEv.rollbackTx ∉ (execTx env).1) := by
  have hstep1 : runPhases (p :: rest) (0 + ps.length) false w evs0 =
      (evs0 ++ [TxEv.phase (0 + ps.length)], true, .ok v) := by
    have hone : runPhases (p :: rest) (0 + ps.length) false w evs0 =
        runPhases rest (0 + ps.length + 1) true v (evs0 ++ [TxEv.phase (0 + ps.length)]) := by
      simp [runPhases, hp]
    rw [hone, runPhases_skip]
  have hrun : runPhases env.phases 0 false 0 [TxEv.getConnection, TxEv.startTx] =
      (evs0 ++ [TxEv.phase ps.length], true, .ok v) := by
    rw [hph, runPhases_append_ok ps (p :: rest) 0 false 0 _ evs0 false w hpre, hstep1]
    simp
  have hexec : execTx env = commitTail env (evs0 ++ [TxEv.phase ps.length]) v := by
    simp only [execTx, hconn, hstart, hrun]
  obtain ⟨tail, res, heq, hb⟩ :=
    runPhases_trace ps 0 false 0 [TxEv.getConnection, TxEv.startTx]
  rw [hpre] at heq
  have hevs0 : evs0 = [TxEv.getConnection, TxEv.startTx] ++ tail := congrArg Prod.fst heq
  have hclass : ∀ ev ∈ evs0 ++ [TxEv.phase ps.length],
      ev = TxEv.getConnection ∨ ev = TxEv.startTx ∨
        ∃ j, ev = TxEv.phase j ∧ j ≤ ps.length := by
    intro ev hev
    rcases List.mem_append.mp hev with hev | hev
    · rw [hevs0] at hev
      rcases List.mem_append.mp hev with hev | hev
      · rcases List.mem_cons.mp hev with hev | hev
        · exact Or.inl hev
        · exact Or.inr (Or.inl (List.mem_singleton.mp hev))
      · obtain ⟨j, hj, hlt⟩ := hb ev hev
        exact Or.inr (Or.inr ⟨j, hj, by omega⟩)
    · exact Or.inr (Or.inr ⟨ps.length, List.mem_singleton.mp hev, le_refl _⟩)
  obtain ⟨extra, hct, hextra⟩ := commitTail_fst env (evs0 ++ [TxEv.phase ps.length]) v
  refine ⟨hexec, ?_, ?_, ?_⟩
  · intro j hj hmem
    rw [hexec, hct] at hmem
    rcases List.mem_append.mp hmem with hmem | hmem
    · rcases hclass _ hmem with h1 | h1 | ⟨j2, hj2, hle⟩
      · exact TxEv.noConfusion h1
      · exact TxEv.noConfusion h1
      · have : j = j2 := by injection hj2
        omega
    · rcases List.mem_cons.mp hmem with hmem | hmem
      · exact TxEv.noConfusion hmem
      · rcases hextra _ hmem with h1 | ⟨b, h1⟩ | h1 | h1 <;> exact TxEv.noConfusion h1
  · rw [hexec, hct]
    exact List.mem_append.mpr (Or.inr (List.mem_cons_self _ _))
  · intro hc
    have hct2 : commitTail env (evs0 ++ [TxEv.phase ps.length]) v =
        ((evs0 ++ [TxEv.phase ps.length]) ++
          [TxEv.commitTx, TxEv.release false, TxEv.emitCommit], .ok v) := by
      simp [commitTail, hc]
    constructor
    · rw [hexec, hct2]
      simp
    · rw [hexec, hct2]
      intro hmem
      simp only [Prod.fst] at hmem
      rcases List.mem_append.mp hmem with hmem | hmem
      · rcases hclass _ hmem with h1 | h1 | ⟨j2, hj2, _⟩
        · exact TxEv.noConfusion h1
        · exact TxEv.noConfusion h1
        · exact TxEv.noConfusion hj2
      · rcases List.mem_cons.mp hmem with h1 | hmem
        · exact TxEv.noConfusion h1
        · rcases List.mem_cons.mp hmem with h1 | hmem
          · exact TxEv.noConfusion h1
          · rcases List.mem_singleton.mp hmem with h1
            exact TxEv.noConfusion h1

/-- Witness for C3 at a concrete environment whose second of three phases
marks the transaction complete. -/
theorem phaseCompleteShortCircuit_witness :
    envEarlyComplete.conn = .ok () ∧
    envEarlyComplete.phases = [phOk 1] ++ phComplete 2 :: [phFail errB] ∧
    runPhases [phOk 1] 0 false 0 [TxEv.getConnection, TxEv.startTx] =
      ([TxEv.getConnection, TxEv.startTx, TxEv.phase 0], false, .ok 1) ∧
    phComplete 2 1 = (.ok 2, true) ∧
    (∀ j, 1 < j → TxEv.phase j ∉ (execTx envEarlyComplete).1) ∧
    TxEv.commitTx ∈ (execTx envEarlyComplete).1 ∧
    execTx envEarlyComplete =
      ([TxEv.getConnection, TxEv.startTx, TxEv.phase 0, TxEv.phase 1,
        TxEv.commitTx, TxEv.release false, TxEv.emitCommit], .ok 2) := by
  have h := phaseCompleteShortCircuit envEarlyComplete [phOk 1] (phComplete 2) [phFail errB]
    [TxEv.getConnection, TxEv.startTx, TxEv.phase 0] 1 2 rfl rfl rfl rfl rfl
  exact ⟨rfl, rfl, rfl, rfl, h.2.1, h.2.2.1, (h.2.2.2 rfl).1⟩

/-- C4: when a phase fails while the transaction is active, the
transaction is rolled back before the rejection propagates, and — under
the handle contract that `rollback(err)` settles (resolves or rejects)
with the error passed to it — the value that propagates to the caller is
the original phase error, never a substitute produced by the rollback. -/
theorem rollbackPreservesOriginalError (env : TxEnv) (evs : List TxEv) (c : Bool) (e : JErr)
    (hconn : env.conn = .ok ()) (hstart : env.start = .ok ())
    (hrun : runPhases env.phases 0 false 0 [TxEv.getConnection, TxEv.startTx] =
      (evs, c, .error e))
    (hrb : env.rollbackOut e = .ok e ∨ env.rollbackOut e = .error e) :
    execTx env =
      (evs ++ [TxEv.rollbackTx, TxEv.release e.isError, TxEv.emitRollback], .error e) := by
  have hsettle : rollbackSettle env e = e := by
    rcases hrb with h | h <;> simp [rollbackSettle, h]
  have hx : execTx env = failTail env evs e true true := by
    simp only [execTx, hconn, hstart, hrun]
  rw [hx]
  show (evs ++ [TxEv.rollbackTx, TxEv.release (rollbackSettle env e).isError,
    TxEv.emitRollback], Except.error (rollbackSettle env e)) = _
  rw [hsettle]

/-- Witness for C4 at a concrete environment whose second phase rejects
and whose rollback rejects with the error passed to it. -/
theorem rollbackPreservesOriginalError_witness :
    envPhaseFail.conn = .ok () ∧
    runPhases envPhaseFail.phases 0 false 0 [TxEv.getConnection, TxEv.startTx] =
      ([TxEv.getConnection, TxEv.startTx, TxEv.phase 0, TxEv.phase 1], false, .error errB) ∧
    (envPhaseFail.rollbackOut errB = .ok errB ∨ envPhaseFail.rollbackOut errB = .error errB) ∧
    execTx envPhaseFail =
      ([TxEv.getConnection, TxEv.startTx, TxEv.phase 0, TxEv.phase 1,
        TxEv.rollbackTx, TxEv.release true, TxEv.emitRollback], .error errB) := by
  have h := rollbackPreservesOriginalError envPhaseFail
    [TxEv.getConnection, TxEv.startTx, TxEv.phase 0, TxEv.phase 1] false errB
    rfl rfl rfl (Or.inr rfl)
  exact ⟨rfl, rfl, Or.inr rfl, h⟩


/-! ## Claim theorems: conditional request evaluation -/

/-- C10: when `If-Match` is absent, `If-Unmodified-Since` is present and
parses to a valid date, and no last-modified timestamp is known for the
resource, the evaluator returns the 412 response — a missing timestamp is
a precondition failure, not a pass. -/
theorem ifUnmodifiedSinceMissingTimestamp (h : CondHeaders) (method : String)
    (etag : Option String) (t : Int)
    (h1 : h.ifMatch = none) (h2 : h.ifUnmodifiedSince = some (some t)) :
    evaluatePreconditions h method etag none = some resp412IfUnmodifiedSince := by
  simp [evaluatePreconditions, earlierPreconditions, h1, h2]

/-- Witness for C10 at concrete headers. -/
theorem ifUnmodifiedSinceMissingTimestamp_witness :
    hdrUnmodSince.ifMatch = none ∧
    hdrUnmodSince.ifUnmodifiedSince = some (some 50) ∧
    evaluatePreconditions hdrUnmodSince "GET" (some "\"v1\"") none =
      some resp412IfUnmodifiedSince :=
  ⟨rfl, rfl, ifUnmodifiedSinceMissingTimestamp hdrUnmodSince "GET" (some "\"v1\"") 50 rfl rfl⟩

/-- Counterexample to C7 as stated: a conditional request whose
`If-None-Match` header matches the current etag but which also carries a
failing `If-Match` header is answered 412 (`If-Match` precedence), not
304, although the method is `GET`. -/
theorem ifMatchPrecedenceMasksNoneMatch :
    matchETag "\"v1\"" (some "\"v1\"") true = true ∧
    evaluatePreconditions ⟨some "\"v2\"", none, some "\"v1\"", none⟩ "GET"
      (some "\"v1\"") (some 1000) = some resp412IfMatch ∧
    resp412IfMatch.status = 412 :=
  ⟨rfl, rfl, rfl⟩

/-- C7 as amended: provided the earlier preconditions do not already
fail — the `If-Match` / `If-Unmodified-Since` step does not
short-circuit, whether its headers are absent, `If-Match` is present but
matches, or `If-Unmodified-Since` is present but unparseable or
satisfied — a request whose `If-None-Match` value matches the current
etag (wildcard or listed etag under weak comparison) is answered 304 for
`GET`/`HEAD` — carrying the current etag and the last-modified timestamp
when known as validator headers — and 412 for any other method. -/
theorem ifNoneMatchEvaluation (h : CondHeaders) (method : String)
    (etag : Option String) (lm : Option Int) (v : String)
    (h1 : earlierPreconditions h etag lm = none)
    (h3 : h.ifNoneMatch = some v) (hm : matchETag v etag true = true) :
    evaluatePreconditions h method etag lm =
      (if method = "GET" ∨ method = "HEAD" then some ⟨304, etag, lm, none⟩
       else some resp412IfNoneMatch) := by
  simp [evaluatePreconditions, h1, h3, hm]

/-- Witness for the amended C7 at concrete headers whose `If-Match` is
present but passing (so only the precedence step's outcome, not header
absence, admits the fall-through), for both a `GET` and a `POST`; a
second instantiation covers the absent-headers fixture. -/
theorem ifNoneMatchEvaluation_witness :
    earlierPreconditions hdrMatchAndNoneMatch (some "\"v1\"") (some 99) = none ∧
    matchETag "\"v1\"" (some "\"v1\"") true = true ∧
    evaluatePreconditions hdrMatchAndNoneMatch "GET" (some "\"v1\"") (some 99) =
      some ⟨304, some "\"v1\"", some 99, none⟩ ∧
    evaluatePreconditions hdrMatchAndNoneMatch "POST" (some "\"v1\"") (some 99) =
      some resp412IfNoneMatch ∧
    evaluatePreconditions hdrNoneMatch "GET" (some "\"v1\"") (some 99) =
      some ⟨304, some "\"v1\"", some 99, none⟩ := by
  have hget := ifNoneMatchEvaluation hdrMatchAndNoneMatch "GET" (some "\"v1\"") (some 99)
    "\"v1\"" rfl rfl rfl
  have hpost := ifNoneMatchEvaluation hdrMatchAndNoneMatch "POST" (some "\"v1\"") (some 99)
    "\"v1\"" rfl rfl rfl
  have habs := ifNoneMatchEvaluation hdrNoneMatch "GET" (some "\"v1\"") (some 99)
    "\"v1\"" rfl rfl rfl
  refine ⟨rfl, rfl, ?_, ?_, ?_⟩
  · rw [hget]
    simp
  · rw [hpost]
    simp
  · rw [habs]
    simp

/-! ## Claim theorems: the filter and search query parser -/

/-- C6: with no explicit end-operation token, the resolved default is
`eq` (equals) — or `ne` (not equals) when the expression ends in `!` —
exactly when an operand value is supplied and the path is scalar;
`!empty`/`empty` (not-empty / empty) when no value is supplied; and for
collection-valued paths always `!empty`/`empty` whether or not a value is
supplied, never an implicit equality. -/
theorem defaultOperationSelection :
    ∀ collection hasValue invert : Bool,
      (resolveOp FILTER_OPS_MAPPING none collection hasValue invert).map (fun x => x.2) =
        .ok (if collection then (if invert then "empty" else "!empty")
             else if hasValue then (if invert then "ne" else "eq")
             else if invert then "empty" else "!empty") := by
  intro collection hasValue invert
  cases collection <;> cases hasValue <;> cases invert <;> rfl

/-- C9: `f$accountRef.lastName:len:min=5` over a schema whose
`accountRef` references a type with string `lastName` compiles to the
spec expression `length(accountRef.lastName) => ge` with its operand
coerced to the number 5 and registered as the generated parameter `pf0`;
the same expression with the non-numeric operand `"abc"` fails with the
invalid-value syntax error. -/
theorem lengthTransformExample :
    parseFilterParams 10 (some schemaAccount) "f" ":and"
      [("f$accountRef.lastName:len:min", QV.one "5")] [] [] =
      .ok (some (":and",
        [FV.arr [FV.str "length(accountRef.lastName) => ge", FV.pararef "pf0"]]),
        [("pf0", QPVal.n 5)]) ∧
    parseFilterParams 10 (some schemaAccount) "f" ":and"
      [("f$accountRef.lastName:len:min", QV.one "abc")] [] [] =
      .error (.src (.syntaxErr "Invalid test value, expected a number.")) :=
  ⟨rfl, rfl⟩

/-- Counterexample to C5 as stated: the example input compiles
`f$price:max!=100` to the member `price => gt` (the `!` inverts `le` to
`gt`, meaning `price > 100`), which is not equivalent to the claimed
`NOT(price > 100)`: on the record `{status := "PENDING", price := 50}`
the compiled filter is false while the claimed tree is true. -/
theorem filterExampleClaimMismatch :
    parseFilterParams 10 (some schemaOrder) "f" ":and" qExample [] [] =
      .ok (some (":and", exampleMembers), exampleParams) ∧
    evalAndMembers exampleParams ⟨"PENDING", 50⟩ exampleMembers = some false ∧
    exampleClaimSem ⟨"PENDING", 50⟩ = true :=
  ⟨rfl, rfl, rfl⟩

/-- C5 as amended: the example input compiles to the member list
`AND(status == "PENDING", price >= 10, price > 100)` — the third member
being `NOT(price <= 100)`, i.e. `price > 100` — with two generated
numeric parameters bound to 10 and 100 (plus the string parameter bound
to `"PENDING"`). -/
theorem filterExampleCompilation :
    parseFilterParams 10 (some schemaOrder) "f" ":and" qExample [] [] =
      .ok (some (":and", exampleMembers), exampleParams) ∧
    lookupQP exampleParams "pf1" = some (QPVal.n 10) ∧
    lookupQP exampleParams "pf2" = some (QPVal.n 100) ∧
    (∀ r : SRec, evalAndMembers exampleParams r exampleMembers =
      some (r.status == "PENDING" &&
        (decide (10 ≤ r.price) && (decide (100 < r.price) && true)))) :=
  ⟨rfl, rfl, rfl, fun _ => rfl⟩

/-- Counterexample to C8 as stated: a single `r` parameter is split on
comma and `Number()`-converted with no arity or integrality check — the
value `"1,2,3"` yields a three-element range, not an error. -/
theorem rangeNotTwoIntegers :
    parseSearchQuery 1 schemaOrder [("r", QV.one "1,2,3")] "r" [] =
      .ok (⟨none, none, none, some [some 1, some 2, some 3]⟩, []) ∧
    ([some 1, some 2, some 3] : List (Option Int)).length ≠ 2 :=
  ⟨rfl, by decide⟩

/-- C8 as amended: the `r` range parameter may appear at most once — an
array value (a repeated parameter, whatever the order of occurrences) is
the hard parse error "More than one range specification." — and a single
non-empty value is split on comma into the `Number()` conversions of its
elements, with no check that there are exactly two or that they are
integers. -/
theorem rangeParameterParsing (rtd : Cont) (q : UrlQuery) (qp : QPs) (fuel : Nat) :
    (∀ l, qGet q "r" = some (QV.many l) →
      parseSearchQuery fuel rtd q "r" qp =
        .error (.src (.syntaxErr "More than one range specification."))) ∧
    (∀ s, qGet q "r" = some (QV.one s) → (s == "") = false →
      parseSearchQuery fuel rtd q "r" qp =
        .ok (⟨none, none, none, some ((jsSplit ',' s).map jsNumber)⟩, qp)) := by
  constructor
  · intro l hl
    simp [parseSearchQuery, hl, truthyQV]
  · intro s hs hne
    simp [parseSearchQuery, hs, truthyQV, hne]

/-- Witness for the amended C8: the doubled fixture `r=0,20&r=5,5` fails
with the range error, and the single fixture `r=0,20` parses to the
range `[0, 20]`. -/
theorem rangeParameterParsing_witness :
    qGet [("r", QV.many ["0,20", "5,5"])] "r" = some (QV.many ["0,20", "5,5"]) ∧
    parseSearchQuery 1 schemaOrder [("r", QV.many ["0,20", "5,5"])] "r" [] =
      .error (.src (.syntaxErr "More than one range specification.")) ∧
    parseSearchQuery 1 schemaOrder [("r", QV.one "0,20")] "r" [] =
      .ok (⟨none, none, none, some [some 0, some 20]⟩, []) := by
  refine ⟨rfl, ?_, ?_⟩
  · exact (rangeParameterParsing schemaOrder [("r", QV.many ["0,20", "5,5"])] [] 1).1
      ["0,20", "5,5"] rfl
  · have h := (rangeParameterParsing schemaOrder [("r", QV.one "0,20")] [] 1).2
      "0,20" rfl rfl
    rw [h]
    rfl


/-! ## Lemmas for the group parser recursion -/

theorem parseFilterParams_succ (fuel : Nat) (base : Option Cont) (groupId junc : String)
    (q : UrlQuery) (parents : List String) (qp : QPs) :
    parseFilterParams (fuel + 1) base groupId junc q parents qp =
      (if strLen groupId == 0 then .error (.src (.syntaxErr "Empty nested group id."))
       else if parents.contains groupId then
        .error (.src (.syntaxErr "Circular filter group reference."))
       else
        match goEntries fuel base groupId q parents (groupEntries groupId q) 0 [] qp with
        | .error e => .error e
        | .ok (members, _, qp2) =>
          .ok (if members.isEmpty then none else some (junc, members), qp2)) := rfl

theorem goEntries_succ_nil (fuel : Nat) (base : Option Cont) (groupId : String)
    (q : UrlQuery) (parents : List String) (nextId : Nat) (members : List FV) (qp : QPs) :
    goEntries (fuel + 1) base groupId q parents [] nextId members qp =
      .ok (members, nextId, qp) := rfl

theorem goEntries_succ_cons (fuel : Nat) (base : Option Cont) (groupId : String)
    (q : UrlQuery) (parents : List String) (r v : String)
    (rest : List (String × String)) (nextId : Nat) (members : List FV) (qp : QPs) :
    goEntries (fuel + 1) base groupId q parents ((r, v) :: rest) nextId members qp =
      (match stepEntry (parserAt fuel).1 base groupId q parents r v nextId members qp with
       | .error e => .error e
       | .ok (nextId2, members2, qp2) =>
         goEntries fuel base groupId q parents rest nextId2 members2 qp2) := rfl

theorem groupEntries_cons (g : String) (e : String × QV) (rest : UrlQuery) :
    groupEntries g (e :: rest) =
      (if jsStartsWith e.1 (g ++ "$") then
        (valsOf e.2).map (fun v => (jsDrop (strLen (g ++ "$")) e.1, v))
       else []) ++ groupEntries g rest := by
  by_cases h : jsStartsWith e.1 (g ++ "$") <;> simp [groupEntries, List.filter, h]

theorem candIds_cons (e : String × QV) (rest : UrlQuery) :
    candIds (e :: rest) =
      (valsOf e.2).flatMap (fun s => s :: (jsSplit ':' s).drop 1) ++ candIds rest := by
  simp [candIds]

theorem groupEntries_vals (g : String) (q : UrlQuery) :
    ∀ rv ∈ groupEntries g q, rv.2 ∈ candIds q ∧
      ∀ x ∈ (jsSplit ':' rv.2).drop 1, x ∈ candIds q := by
  induction q with
  | nil => intro rv hrv; simp [groupEntries] at hrv
  | cons e rest ih =>
    intro rv hrv
    rw [groupEntries_cons] at hrv
    rcases List.mem_append.mp hrv with hrv | hrv
    · by_cases h : jsStartsWith e.1 (g ++ "$")
      · rw [if_pos h] at hrv
        obtain ⟨v, hv, hveq⟩ := List.mem_map.mp hrv
        have hv2 : rv.2 = v := by rw [← hveq]
        constructor
        · rw [candIds_cons, hv2]
          exact List.mem_append.mpr (Or.inl
            (List.mem_flatMap.mpr ⟨v, hv, List.mem_cons_self _ _⟩))
        · intro x hx
          rw [hv2] at hx
          rw [candIds_cons]
          exact List.mem_append.mpr (Or.inl
            (List.mem_flatMap.mpr ⟨v, hv, List.mem_cons_of_mem _ hx⟩))
      · rw [if_neg h] at hrv
        simp at hrv
    · obtain ⟨h1, h2⟩ := ih rv hrv
      exact ⟨by rw [candIds_cons]; exact List.mem_append.mpr (Or.inr h1),
        fun x hx => by rw [candIds_cons]; exact List.mem_append.mpr (Or.inr (h2 x hx))⟩

theorem groupEntries_length (g : String) (q : UrlQuery) :
    (groupEntries g q).length ≤ totalVals q := by
  induction q with
  | nil => simp [groupEntries, totalVals]
  | cons e rest ih =>
    rw [groupEntries_cons]
    have htv : totalVals (e :: rest) = (valsOf e.2).length + totalVals rest := by
      simp [totalVals]
    rw [htv, List.length_append]
    by_cases h : jsStartsWith e.1 (g ++ "$") <;> simp [h] <;> omega

theorem length_filter_sub_one (U : List String) (g : String) (p1 p2 : String → Bool)
    (hU : U.Nodup) (hg : g ∈ U)
    (hpg1 : p1 g = false) (hpg2 : p2 g = true)
    (hagree : ∀ x, x ≠ g → p1 x = p2 x) :
    (U.filter p1).length + 1 = (U.filter p2).length := by
  induction U with
  | nil => cases hg
  | cons a rest ih =>
    rw [List.nodup_cons] at hU
    rcases List.mem_cons.mp hg with rfl | hgr
    · have hres : rest.filter p1 = rest.filter p2 :=
        List.filter_congr (fun x hx => hagree x (fun h => hU.1 (h ▸ hx)))
      rw [List.filter_cons, List.filter_cons, hpg1, hpg2, hres]
      simp
    · have hne : a ≠ g := fun h => hU.1 (h ▸ hgr)
      have hax := hagree a hne
      have hstep := ih hU.2 hgr
      rw [List.filter_cons, List.filter_cons, hax]
      by_cases hpa : p2 a = true
      · rw [if_pos hpa, if_pos hpa]
        simp only [List.length_cons]
        omega
      · rw [if_neg hpa, if_neg hpa]
        exact hstep

theorem remaining_cons_mem (q : UrlQuery) (g : String) (ps : List String)
    (hg : g ∈ candIds q) (hgp : g ∉ ps) :
    remaining q (g :: ps) + 1 = remaining q ps := by
  refine length_filter_sub_one _ g _ _ (List.nodup_dedup _) (by simpa using hg) ?_ ?_ ?_
  · simp
  · simp [hgp]
  · intro x hxg
    simp [List.mem_cons, hxg]

theorem remaining_cons_le (q : UrlQuery) (g : String) (ps : List String) :
    remaining q (g :: ps) ≤ remaining q ps := by
  refine (List.monotone_filter_right _ ?_).length_le
  intro x hx
  simp only [decide_eq_true_eq] at hx ⊢
  exact fun hmem => hx (List.mem_cons_of_mem _ hmem)


theorem stepEntry_no_oof (pf : ParseGroupFn) (base : Option Cont) (groupId : String)
    (q : UrlQuery) (parents : List String) (r v : String) (nextId : Nat)
    (members : List FV) (qp : QPs)
    (hpf : ∀ base2 gid junc qp2, (gid = v ∨ gid ∈ (jsSplit ':' v).drop 1) →
      pf base2 gid junc q (groupId :: parents) qp2 ≠ .error .outOfFuel) :
    stepEntry pf base groupId q parents r v nextId members qp ≠ .error .outOfFuel := by
  intro hcon
  by_cases hj : jsStartsWith r ":"
  · rcases hjo : junctionOf r with _ | nj
    · simp [stepEntry, hj, hjo] at hcon
    · rcases hp : pf base v nj q (groupId :: parents) qp with e | ⟨nested, qp2⟩
      · simp [stepEntry, hj, hjo, hp] at hcon
        rw [hcon] at hp
        exact hpf base v nj qp (Or.inl rfl) hp
      · rcases nested with _ | jm <;> simp [stepEntry, hj, hjo, hp] at hcon
  · rcases hpq : parseQueryPropRef base r FILTER_OPS_MAPPING (decide (0 < strLen v))
      with e | pred
    · simp [stepEntry, hj, hpq] at hcon
    · by_cases hv : 0 < strLen v
      · rw [decide_eq_true hv] at hpq
        by_cases hsc : pred.propDesc.isScalar
        · rcases hval : (if pred.multi then
              (mapValues
                (fun w => valueToQueryParam w pred.valueType pred.refPrefix)
                (jsSplit '|' v)).map QPVal.arr
            else valueToQueryParam v pred.valueType pred.refPrefix :
              Except SErr QPVal) with e | qv <;>
            simp [stepEntry, hj, hpq, hv, hsc, hval] at hcon
        · rcases hcnt : (if jsEndsWith pred.spec "count" then
              match jsSplit ':' v with
              | [c] =>
                match jsNumber c with
                | some n => .ok (some n, none)
                | none => .error (SErr.syntaxErr
                    "Invalid \"count\" filter parameter value: the count is not an integer.")
              | [c, g] =>
                match jsNumber c with
                | some n => .ok (some n, some g)
                | none => .error (SErr.syntaxErr
                    "Invalid \"count\" filter parameter value: the count is not an integer.")
              | _ => .error (SErr.syntaxErr
                  "Invalid \"count\" filter parameter value: more than 2 colon-separated values.")
            else .ok (none, some v) :
              Except SErr (Option Int × Option String)) with e | cn
          · simp [stepEntry, hj, hpq, hv, hsc, hcnt] at hcon
          · obtain ⟨cnt, ng0⟩ := cn
            rcases hng : ng0 with _ | g
            · simp [stepEntry, hj, hpq, hv, hsc, hcnt, hng] at hcon
            · by_cases hg0 : g = ""
              · simp [stepEntry, hj, hpq, hv, hsc, hcnt, hng, hg0] at hcon
              · rcases hpn : pf pred.propDesc.nestedProperties g ":and" q
                  (groupId :: parents) qp with e | ⟨nested, qp2⟩
                · simp [stepEntry, hj, hpq, hv, hsc, hcnt, hng, hg0, hpn] at hcon
                  rw [hcon] at hpn
                  refine hpf _ g ":and" qp ?_ hpn
                  subst hng
                  by_cases hc2 : jsEndsWith pred.spec "count"
                  · rw [if_pos hc2] at hcnt
                    rcases hsp : jsSplit ':' v with _ | ⟨c, rest2⟩
                    · rw [hsp] at hcnt
                      simp at hcnt
                    · rcases rest2 with _ | ⟨g2, rest3⟩
                      · rw [hsp] at hcnt
                        rcases hn : jsNumber c with _ | n <;> simp [hn] at hcnt
                      · rcases rest3 with _ | _
                        · rw [hsp] at hcnt
                          rcases hn : jsNumber c with _ | n <;> simp [hn] at hcnt
                          refine Or.inr ?_
                          simp [hcnt.2]
                        · rw [hsp] at hcnt
                          simp at hcnt
                  · rw [if_neg hc2] at hcnt
                    simp at hcnt
                    exact Or.inl hcnt.2.symm
                · rcases nested with _ | jm <;>
                    simp [stepEntry, hj, hpq, hv, hsc, hcnt, hng, hg0, hpn] at hcon
      · rw [decide_eq_false hv] at hpq
        by_cases hrv : pred.requiresValue <;>
          simp [stepEntry, hj, hpq, hv, hrv] at hcon


theorem parserNoOutOfFuel (q : UrlQuery) : ∀ fuel : Nat,
    (∀ base groupId junc parents qp,
      parents.Nodup →
      remaining q parents * (totalVals q + 2) + 2 +
        (if groupId ∈ candIds q then 0 else totalVals q + 2) ≤ fuel →
      parseFilterParams fuel base groupId junc q parents qp ≠ .error .outOfFuel) ∧
    (∀ base groupId parents entries nextId members qp,
      parents.Nodup → groupId ∉ parents →
      (∀ rv ∈ entries, rv.2 ∈ candIds q ∧
        ∀ x ∈ (jsSplit ':' rv.2).drop 1, x ∈ candIds q) →
      remaining q (groupId :: parents) * (totalVals q + 2) + entries.length + 2 ≤ fuel →
      goEntries fuel base groupId q parents entries nextId members qp ≠ .error .outOfFuel) := by
  intro fuel
  induction fuel with
  | zero =>
    constructor
    · intro base groupId junc parents qp hnd hbound
      by_cases hmem : groupId ∈ candIds q <;> simp [hmem] at hbound
    · intro base groupId parents entries nextId members qp hnd hgp hents hbound
      omega
  | succ f ih =>
    obtain ⟨ihP, ihG⟩ := ih
    constructor
    · intro base groupId junc parents qp hnd hbound
      rw [parseFilterParams_succ]
      intro hcon
      by_cases hz : (strLen groupId == 0) = true
      · rw [if_pos hz] at hcon
        simp at hcon
      · rw [if_neg hz] at hcon
        by_cases hcg : parents.contains groupId = true
        · rw [if_pos hcg] at hcon
          simp at hcon
        · rw [if_neg hcg] at hcon
          have hgp : groupId ∉ parents := by simpa using hcg
          have hboundG : remaining q (groupId :: parents) * (totalVals q + 2) +
              (groupEntries groupId q).length + 2 ≤ f := by
            have hlen := groupEntries_length groupId q
            by_cases hmem : groupId ∈ candIds q
            · have hrem := remaining_cons_mem q groupId parents hmem hgp
              simp only [hmem, if_pos, if_true] at hbound
              rw [← hrem, Nat.succ_mul] at hbound
              omega
            · have hle := remaining_cons_le q groupId parents
              have hml := Nat.mul_le_mul_right (totalVals q + 2) hle
              simp only [hmem, if_neg, if_false] at hbound
              omega
          rcases hge : goEntries f base groupId q parents (groupEntries groupId q) 0 [] qp
            with e | ⟨members, nid, qp2⟩
          · simp only [hge] at hcon
            have he : e = PErr.outOfFuel := by simpa using hcon
            subst he
            exact ihG base groupId parents (groupEntries groupId q) 0 [] qp hnd hgp
              (groupEntries_vals groupId q) hboundG hge
          · simp only [hge] at hcon
            simp at hcon
    · intro base groupId parents entries nextId members qp hnd hgp hents hbound
      cases entries with
      | nil =>
        rw [goEntries_succ_nil]
        simp
      | cons rv rest =>
        obtain ⟨r, v⟩ := rv
        rw [goEntries_succ_cons]
        intro hcon
        simp only [List.length_cons] at hbound
        rcases hse : stepEntry (parserAt f).1 base groupId q parents r v nextId members qp
          with e | ⟨nid2, m2, qp2⟩
        · simp only [hse] at hcon
          have he : e = PErr.outOfFuel := by simpa using hcon
          subst he
          refine stepEntry_no_oof (parserAt f).1 base groupId q parents r v nextId members qp
            ?_ hse
          intro base2 gid junc qp3 hgid
          have hgidmem : gid ∈ candIds q := by
            obtain ⟨h1, h2⟩ := hents (r, v) (List.mem_cons_self _ _)
            rcases hgid with rfl | hgid
            · exact h1
            · exact h2 gid hgid
          have hnd2 : (groupId :: parents).Nodup := List.nodup_cons.mpr ⟨hgp, hnd⟩
          show parseFilterParams f base2 gid junc q (groupId :: parents) qp3 ≠
            Except.error PErr.outOfFuel
          refine ihP base2 gid junc (groupId :: parents) qp3 hnd2 ?_
          simp only [hgidmem, if_pos, if_true]
          omega
        · simp only [hse] at hcon
          refine ihG base groupId parents rest nid2 m2 qp2 hnd hgp
            (fun rv2 hrv2 => hents rv2 (List.mem_cons_of_mem _ hrv2)) ?_ hcon
          omega

/-- Counterexample to C2 as stated: in the query parameter set
`a$:or=a`, the named group `a` directly references itself as a nested
group, yet parsing from the root filter group `f` succeeds (with no
filter members) because the cyclic group is never referenced from the
root — no circular-group-reference error is raised. -/
theorem unreachedCircularGroupNoError :
    groupEntries "a" qSelfLoop = [(":or", "a")] ∧
    parseFilterParams 3 (some schemaOrder) "f" ":and" qSelfLoop [] [] = .ok (none, []) :=
  ⟨rfl, rfl⟩

/-- C2 as amended: a self-reference the parse actually reaches fails with
the circular-group-reference syntax error — in particular, on the cyclic
fixture `f$:or=a&a$:or=b&b$:or=a` parsing fails with that error at every
fuel beyond the recursion's depth — and the recursion is bounded on every
input: for every query, fuel beyond a bound computed from the query
(candidate-id count times per-group entry bound) never exhausts, so the
parser never loops forever. -/
theorem circularGroupDetectionAndTermination :
    (∀ fuel, 7 ≤ fuel →
      parseFilterParams fuel (some schemaOrder) "f" ":and" qCyclic [] [] =
        .error (.src (.syntaxErr "Circular filter group reference."))) ∧
    (∀ q : UrlQuery, ∀ fuel base groupId junc qp,
      (remaining q [] + 1) * (totalVals q + 2) + 2 ≤ fuel →
      parseFilterParams fuel base groupId junc q [] qp ≠ .error .outOfFuel) := by
  constructor
  · intro fuel h7
    obtain ⟨j, rfl⟩ : ∃ j, fuel = j + 7 := ⟨fuel - 7, by omega⟩
    rfl
  · intro q fuel base groupId junc qp hbound
    refine (parserNoOutOfFuel q fuel).1 base groupId junc [] qp List.nodup_nil ?_
    rw [Nat.succ_mul] at hbound
    by_cases hmem : groupId ∈ candIds q <;> simp only [hmem, if_pos, if_neg, if_true, if_false] <;> omega

/-- Witness for the amended C2: the cyclic fixture fails with the
circular-reference error at fuel 7, and a concrete query parses within
its computed fuel bound without exhausting fuel. -/
theorem circularGroupDetectionAndTermination_witness :
    parseFilterParams 7 (some schemaOrder) "f" ":and" qCyclic [] [] =
      .error (.src (.syntaxErr "Circular filter group reference.")) ∧
    parseFilterParams 20 (some schemaOrder) "f" ":and" qSelfLoop [] [] ≠
      .error .outOfFuel := by
  constructor
  · exact circularGroupDetectionAndTermination.1 7 (by omega)
  · exact circularGroupDetectionAndTermination.2 qSelfLoop 20 (some schemaOrder) "f" ":and" []
      (by decide)

end X2
